import Mathlib

/-!
Verification of `src/primitives.rs` from the carboxyl event-stream library.

The crate builds a chain of typed stages (`Sink`, `Map`, `Filter`, `Iter`) on top
of a generic broadcast module `subject` (`Source`, `Mapper`, `subject::Filter`,
`Receiver`, the `Subject::listen` registration and the weak `wrap` adapter).
Only `primitives.rs` is present in the snapshot; the `subject` module is an
external collaborator whose contract is given by the specification (sections 2,
5 and 6), so its behaviour is modelled from the spec below and every definition
taken from it says so in its doc comment.

Embedding choices:
- The mutable listener graph behind `Arc`/`RwLock` is modelled as an immutable
  tree of listeners; `send` is a state transformer returning the updated tree.
- A stage that has been dropped (its `Arc` strong count reached zero, so the
  weak handle held by the upstream is expired) is modelled by its `alive` flag
  being `false`.  The spec allows pruning of expired listeners to be immediate
  or lazy; the model keeps expired listeners in place but inert.
- `Receiver::next` is a blocking FIFO pop; in the single-threaded model it
  returns `none` exactly when it would block (no value delivered yet).
-/

set_option autoImplicit false

namespace Carboxyl

mutual

/-- Modelled from the spec: a listener registered on a broadcast `Source`
(spec sec. 6).  `mapper` is the `subject::Mapper` adapter wrapped by the `Map`
stage (a user function plus a nested distributor), `filt` is the
`subject::Filter` adapter wrapped by the `Filter` stage (a predicate plus a
nested distributor), and `receiver` is the FIFO queue wrapped by the `Iter`
pull stage.  The `alive` flag models liveness of the weak handle the upstream
holds: `false` means every external reference to the stage has been dropped. -/
inductive Listener : Type → Type 1 where
  | mapper {A B : Type} (f : A → B) (alive : Bool) (subs : Listeners B) : Listener A
  | filt {A : Type} (p : A → Bool) (alive : Bool) (subs : Listeners A) : Listener A
  | receiver {A : Type} (queue : List A) (alive : Bool) : Listener A

/-- Modelled from the spec: the ordered listener set held by one distributor. -/
inductive Listeners : Type → Type 1 where
  | nil {A : Type} : Listeners A
  | cons {A : Type} (l : Listener A) (ls : Listeners A) : Listeners A

end

/-- Modelled from the spec: whether the weak handle to this listener is still
live (the downstream stage still has an external owner). -/
def Listener.isAlive : {A : Type} → Listener A → Bool
  | _, .mapper _ al _ => al
  | _, .filt _ al _ => al
  | _, .receiver _ al => al

/-- Concatenation of listener sets; `Subject::listen` appends one listener. -/
def Listeners.append : {A : Type} → Listeners A → Listeners A → Listeners A
  | _, .nil, ys => ys
  | _, .cons l ls, ys => .cons l (ls.append ys)

mutual

/-- Modelled from the spec: delivery of one value to one live listener
(spec sec. 4.3, 4.4, 4.5).  A `Mapper` computes `b = f a` and fans `b` out to
its own listeners; a `Filter` fans `a` out unchanged when `p a` holds and
otherwise discards it with no observable effect; a `Receiver` enqueues the
value at the back of its FIFO queue. -/
def Listener.receive : {A : Type} → Listener A → A → Listener A
  | _, .mapper f al subs, a => .mapper f al (broadcast subs (f a))
  | _, .filt p al subs, a => if p a then .filt p al (broadcast subs a) else .filt p al subs
  | _, .receiver q al, a => .receiver (q ++ [a]) al

/-- Modelled from the spec: `Source`-style fan-out of one value to every
registered listener, in registration order, depth first (spec sec. 2 data
flow).  A listener whose weak handle has expired is skipped: the forward is a
silent no-op (spec sec. 3, listener registration). -/
def broadcast : {A : Type} → Listeners A → A → Listeners A
  | _, .nil, _ => .nil
  | _, .cons l ls, a => .cons (if l.isAlive then l.receive a else l) (broadcast ls a)

end

/-- Modelled from the spec: repeated fan-out of a whole sequence of values,
one synchronous pass per value. -/
def sendLs {A : Type} : Listeners A → List A → Listeners A
  | ls, [] => ls
  | ls, v :: vs => sendLs (broadcast ls v) vs

/-- Modelled from the spec: the broadcast primitive `Source<A>`, a one-to-many
distributor holding the registered listeners (spec sec. 6). -/
structure Source (A : Type) : Type 1 where
  listeners : Listeners A

/-- Modelled from the spec: `Source::new` constructs an empty distributor. -/
def Source.new (A : Type) : Source A := ⟨.nil⟩

/-- Modelled from the spec: `Source::send` broadcasts one value to all live
listeners. -/
def Source.send {A : Type} (s : Source A) (a : A) : Source A :=
  ⟨broadcast s.listeners a⟩

/-- Modelled from the spec: `Subject::listen` registers one more listener on
the distributor, appended after the existing ones. -/
def Source.listen {A : Type} (s : Source A) (l : Listener A) : Source A :=
  ⟨s.listeners.append (.cons l .nil)⟩

/-- `Sink<A>` from primitives.rs: the entry point of a chain, wrapping one
`Source` (the `RwLock` around it is modelled away; its access modes are
transcribed separately below). -/
structure Sink (A : Type) : Type 1 where
  source : Source A

/-- `Sink::new` (primitives.rs lines 19-21): a sink over an empty source. -/
def Sink.new (A : Type) : Sink A := ⟨Source.new A⟩

/-- `Sink::send` (primitives.rs lines 25-27): delegates to `Source::send` on
the wrapped source. -/
def Sink.send {A : Type} (s : Sink A) (a : A) : Sink A :=
  ⟨s.source.send a⟩

/-- A finite sequence of `send` calls on a sink, in order. -/
def Sink.sendAll {A : Type} (s : Sink A) (vs : List A) : Sink A :=
  vs.foldl Sink.send s

/-- Modelled from the spec: `Receiver::next`, the blocking FIFO pop used by
`Iter::next` (primitives.rs lines 144-146 delegate to it).  `none` models the
call blocking because no value has been delivered yet. -/
def Receiver.next : {A : Type} → List A → Option A × List A
  | _, [] => (none, [])
  | _, v :: q => (some v, q)

/-- The results of `n` successive `next()` calls on a pull stage whose queue
currently holds `q`. -/
def pulls : {A : Type} → Nat → List A → List (Option A)
  | _, 0, _ => []
  | _, n + 1, q => (Receiver.next q).1 :: pulls n (Receiver.next q).2

/-- A single-path chain description: the stages a program composes below a
sink with `map`, `filter` and a terminal `iter` (primitives.rs `Event` trait,
lines 5-11). -/
inductive Chain : Type → Type 1 where
  | iterC {A : Type} : Chain A
  | mapC {A B : Type} (f : A → B) (rest : Chain B) : Chain A
  | filterC {A : Type} (p : A → Bool) (rest : Chain A) : Chain A

/-- The value type reaching the terminal pull stage of a chain. -/
def Chain.Out : {A : Type} → Chain A → Type
  | A, .iterC => A
  | _, .mapC _ rest => rest.Out
  | _, .filterC _ rest => rest.Out

/-- The pure denotation of a chain: the value (if any) that one sent value
contributes to the terminal queue. -/
def Chain.denote : {A : Type} → (c : Chain A) → A → Option c.Out
  | _, .iterC, a => some a
  | _, .mapC f rest, a => rest.denote (f a)
  | _, .filterC p rest, a => if p a then rest.denote a else none

/-- The listener tree a chain builds, all stages live, with terminal queue
`q`: `mapC` becomes a `Map` stage wrapping a `Mapper` (primitives.rs lines
59-63), `filterC` a `Filter` stage wrapping a `subject::Filter` (lines
99-104), `iterC` an `Iter` stage wrapping a `Receiver` (lines 135-139). -/
def Chain.buildQ : {A : Type} → (c : Chain A) → List c.Out → Listener A
  | _, .iterC, q => .receiver q true
  | _, .mapC f rest, q => .mapper f true (.cons (rest.buildQ q) .nil)
  | _, .filterC p rest, q => .filt p true (.cons (rest.buildQ q) .nil)

mutual

/-- A variant of `Listener` in which user-supplied functions may fail
(modelling a panic inside a mapping function or predicate, spec sec. 7):
the only failure sites in the fallible semantics below are applications of
these stored functions. -/
inductive ListenerE : Type → Type 1 where
  | mapper {A B : Type} (f : A → Except String B) (alive : Bool) (subs : ListenersE B) :
      ListenerE A
  | filt {A : Type} (p : A → Except String Bool) (alive : Bool) (subs : ListenersE A) :
      ListenerE A
  | receiver {A : Type} (queue : List A) (alive : Bool) : ListenerE A

/-- Listener set of the fallible variant. -/
inductive ListenersE : Type → Type 1 where
  | nil {A : Type} : ListenersE A
  | cons {A : Type} (l : ListenerE A) (ls : ListenersE A) : ListenersE A

end

/-- Liveness of a fallible-variant listener. -/
def ListenerE.isAlive : {A : Type} → ListenerE A → Bool
  | _, .mapper _ al _ => al
  | _, .filt _ al _ => al
  | _, .receiver _ al => al

mutual

/-- Fallible delivery: identical to `Listener.receive` except that applying a
user function may yield an error, which aborts the pass and surfaces to the
caller of `send` (spec sec. 7: a panic inside user code propagates; the core
performs no recovery). -/
def ListenerE.receive : {A : Type} → ListenerE A → A → Except String (ListenerE A)
  | _, .mapper f al subs, a =>
      match f a with
      | .error e => .error e
      | .ok b =>
          match broadcastE subs b with
          | .error e => .error e
          | .ok subs2 => .ok (.mapper f al subs2)
  | _, .filt p al subs, a =>
      match p a with
      | .error e => .error e
      | .ok true =>
          match broadcastE subs a with
          | .error e => .error e
          | .ok subs2 => .ok (.filt p al subs2)
      | .ok false => .ok (.filt p al subs)
  | _, .receiver q al, a => .ok (.receiver (q ++ [a]) al)

/-- Fallible fan-out: identical to `broadcast` except that a failure in any
listener aborts the pass. -/
def broadcastE : {A : Type} → ListenersE A → A → Except String (ListenersE A)
  | _, .nil, _ => .ok .nil
  | _, .cons l ls, a =>
      match (if l.isAlive then l.receive a else .ok l) with
      | .error e => .error e
      | .ok l2 =>
          match broadcastE ls a with
          | .error e => .error e
          | .ok ls2 => .ok (.cons l2 ls2)

end

/-- A sink over the fallible variant. -/
structure SinkE (A : Type) : Type 1 where
  listeners : ListenersE A

/-- `Sink::send` in the fallible semantics: the fan-out may surface an error,
but only one raised by a user-supplied function. -/
def SinkE.send {A : Type} (s : SinkE A) (a : A) : Except String (SinkE A) :=
  match broadcastE s.listeners a with
  | .error e => .error e
  | .ok ls => .ok ⟨ls⟩

mutual

/-- The same listener tree with every user function made fallible in the
trivial way (`f` never fails).  Used to show `send` has no failure mode of
its own. -/
def Listener.toE : {A : Type} → Listener A → ListenerE A
  | _, .mapper f al subs => .mapper (fun a => .ok (f a)) al (Listeners.toE subs)
  | _, .filt p al subs => .filt (fun a => .ok (p a)) al (Listeners.toE subs)
  | _, .receiver q al => .receiver q al

/-- Pointwise lifting of `Listener.toE` to a listener set. -/
def Listeners.toE : {A : Type} → Listeners A → ListenersE A
  | _, .nil => .nil
  | _, .cons l ls => .cons (Listener.toE l) (Listeners.toE ls)

end

/-- `Iter::next` on a pull stage: pops the front of the wrapped receiver's
queue (primitives.rs lines 142-147). -/
def Iter.next {A : Type} (q : List A) : Option A × List A :=
  Receiver.next q

/-- The mode in which an operation acquires a `RwLock`: `read` is shared
access (`RwLock::read`), `write` is exclusive access (`RwLock::write`). -/
inductive LockAccess where
  | read
  | write
deriving DecidableEq

/-- Lock acquisition of `Sink::send` (primitives.rs line 26:
`self.source.write().unwrap().send(a)`). -/
def Sink.sendLockAccess : LockAccess := .write

/-- Lock acquisition of `map` on a `Sink` (primitives.rs line 35:
`Map::new(&mut *self.source.write().unwrap(), f)`). -/
def Sink.mapLockAccess : LockAccess := .write

/-- Lock acquisition of `filter` on a `Sink` (primitives.rs line 40). -/
def Sink.filterLockAccess : LockAccess := .write

/-- Lock acquisition of `iter` on a `Sink` (primitives.rs line 44). -/
def Sink.iterLockAccess : LockAccess := .write

/-- Lock acquisition of `map` on a `Map` stage (primitives.rs line 76:
`Map::new(&mut *self.mapper.write().unwrap(), g)`). -/
def Map.mapLockAccess : LockAccess := .write

/-- Lock acquisition of `filter` on a `Map` stage (primitives.rs line 82). -/
def Map.filterLockAccess : LockAccess := .write

/-- Lock acquisition of `iter` on a `Map` stage (primitives.rs line 86). -/
def Map.iterLockAccess : LockAccess := .write

/-- Lock acquisition of `map` on a `Filter` stage (primitives.rs line 116:
`Map::new(&mut *self.filter.write().unwrap(), g)`). -/
def Filter.mapLockAccess : LockAccess := .write

/-- Lock acquisition of `filter` on a `Filter` stage (primitives.rs
line 122). -/
def Filter.filterLockAccess : LockAccess := .write

/-- Lock acquisition of `iter` on a `Filter` stage (primitives.rs line 126). -/
def Filter.iterLockAccess : LockAccess := .write

/-- Lock acquisition of `Iter::next` (primitives.rs line 145:
`self.recv.write().unwrap().next()`). -/
def Iter.nextLockAccess : LockAccess := .write

/-! ## Helper lemmas -/

theorem broadcast_append : {A : Type} → (xs ys : Listeners A) → (a : A) →
    broadcast (xs.append ys) a = (broadcast xs a).append (broadcast ys a)
  | _, .nil, ys, a => rfl
  | _, .cons l ls, ys, a => by
      simp [Listeners.append, broadcast, broadcast_append ls ys a]

theorem sendLs_append : {A : Type} → (xs ys : Listeners A) → (vs : List A) →
    sendLs (xs.append ys) vs = (sendLs xs vs).append (sendLs ys vs)
  | _, xs, ys, [] => rfl
  | _, xs, ys, v :: vs => by
      rw [sendLs, broadcast_append]
      exact sendLs_append (broadcast xs v) (broadcast ys v) vs

theorem Sink.sendAll_eq : {A : Type} → (ls : Listeners A) → (vs : List A) →
    Sink.sendAll ⟨⟨ls⟩⟩ vs = ⟨⟨sendLs ls vs⟩⟩
  | _, ls, [] => rfl
  | _, ls, v :: vs => Sink.sendAll_eq (broadcast ls v) vs

theorem sendLs_receiver : {A : Type} → (q : List A) → (vs : List A) →
    sendLs (.cons (.receiver q true) .nil) vs = .cons (.receiver (q ++ vs) true) .nil
  | _, q, [] => by simp [sendLs]
  | _, q, v :: vs => by
      rw [sendLs,
        show broadcast (.cons (.receiver q true) .nil) v
          = (Listeners.cons (.receiver (q ++ [v]) true) .nil) from rfl,
        sendLs_receiver (q ++ [v]) vs]
      simp

theorem pulls_length : {A : Type} → (q : List A) → pulls q.length q = q.map some
  | _, [] => rfl
  | _, v :: q => by simp [pulls, Receiver.next, pulls_length q]

theorem Chain.buildQ_isAlive : {A : Type} → (c : Chain A) → (q : List c.Out) →
    (c.buildQ q).isAlive = true
  | _, .iterC, _ => rfl
  | _, .mapC _ _, _ => rfl
  | _, .filterC _ _, _ => rfl

theorem Chain.receive_buildQ : {A : Type} → (c : Chain A) → (q : List c.Out) → (a : A) →
    (c.buildQ q).receive a = c.buildQ (q ++ (c.denote a).toList)
  | _, .iterC, q, a => rfl
  | _, .mapC f rest, q, a => by
      have hb := Chain.buildQ_isAlive rest q
      simp [Chain.buildQ, Listener.receive, broadcast, Chain.denote, hb,
        Chain.receive_buildQ rest q (f a)]
  | _, .filterC p rest, q, a => by
      have hb := Chain.buildQ_isAlive rest q
      by_cases h : p a
      · simp [Chain.buildQ, Listener.receive, broadcast, Chain.denote, hb, h,
          Chain.receive_buildQ rest q a]
      · simp [Chain.buildQ, Listener.receive, broadcast, Chain.denote, h]

theorem Chain.sendLs_buildQ : {A : Type} → (c : Chain A) → (q : List c.Out) → (vs : List A) →
    sendLs (.cons (c.buildQ q) .nil) vs
      = .cons (c.buildQ (q ++ vs.filterMap c.denote)) .nil
  | _, c, q, [] => by simp [sendLs]
  | _, c, q, v :: vs => by
      have h1 : broadcast (.cons (c.buildQ q) .nil) v
          = (Listeners.cons (c.buildQ (q ++ (c.denote v).toList)) .nil) := by
        simp [broadcast, Chain.buildQ_isAlive, Chain.receive_buildQ]
      rw [sendLs, h1, Chain.sendLs_buildQ c (q ++ (c.denote v).toList) vs]
      cases hd : c.denote v with
      | none => simp [List.filterMap_cons, hd]
      | some b => simp [List.filterMap_cons, hd]

theorem filterMap_pred_eq_filter : {A : Type} → (p : A → Bool) → (vs : List A) →
    vs.filterMap (fun a => if p a then some a else none) = vs.filter p
  | _, p, [] => rfl
  | _, p, v :: vs => by
      by_cases h : p v <;>
        simp [List.filterMap_cons, List.filter_cons, h, filterMap_pred_eq_filter p vs]

theorem filterMap_someComp : {A B : Type} → (h : A → B) → (vs : List A) →
    vs.filterMap (fun a => some (h a)) = vs.map h
  | _, _, h, [] => rfl
  | _, _, h, v :: vs => by simp [List.filterMap_cons, filterMap_someComp h vs]

theorem sendLs_dead : {A : Type} → (l : Listener A) → l.isAlive = false →
    (xs ys : Listeners A) → (vs : List A) →
    sendLs (xs.append (.cons l ys)) vs = (sendLs xs vs).append (.cons l (sendLs ys vs))
  | _, l, h, xs, ys, [] => rfl
  | _, l, h, xs, ys, v :: vs => by
      rw [sendLs, broadcast_append,
        show broadcast (.cons l ys) v = Listeners.cons l (broadcast ys v) by
          simp [broadcast, h]]
      exact sendLs_dead l h (broadcast xs v) (broadcast ys v) vs

theorem Listener.isAlive_toE : {A : Type} → (l : Listener A) →
    (Listener.toE l).isAlive = l.isAlive
  | _, .mapper _ _ _ => rfl
  | _, .filt _ _ _ => rfl
  | _, .receiver _ _ => rfl

mutual

theorem Listener.receive_toE : {A : Type} → (l : Listener A) → (a : A) →
    (Listener.toE l).receive a = .ok (Listener.toE (l.receive a))
  | _, .mapper f al subs, a => by
      simp [Listener.toE, ListenerE.receive, Listener.receive,
        Listeners.broadcast_toE subs (f a)]
  | _, .filt p al subs, a => by
      by_cases h : p a
      · simp [Listener.toE, ListenerE.receive, Listener.receive, h,
          Listeners.broadcast_toE subs a]
      · simp [Listener.toE, ListenerE.receive, Listener.receive, h]
  | _, .receiver q al, a => rfl

theorem Listeners.broadcast_toE : {A : Type} → (ls : Listeners A) → (a : A) →
    broadcastE (Listeners.toE ls) a = .ok (Listeners.toE (broadcast ls a))
  | _, .nil, a => rfl
  | _, .cons l ls, a => by
      by_cases h : l.isAlive = true
      · simp [Listeners.toE, broadcastE, broadcast, Listener.isAlive_toE, h,
          Listener.receive_toE l a, Listeners.broadcast_toE ls a]
      · simp [Listeners.toE, broadcastE, broadcast, Listener.isAlive_toE, h,
          Listeners.broadcast_toE ls a]

end

/-! ## The claims -/

/-- C1: for every finite sequence of values sent on a Sink with exactly one
Pull Stage attached via `iter()`, the receiver's queue afterwards is exactly
the sent sequence, and `n` calls to `next()` return exactly those values in
the order sent — none skipped, duplicated or overwritten. -/
theorem sink_iter_fifo (A : Type) (vs : List A) :
    Sink.sendAll ⟨⟨.cons (.receiver [] true) .nil⟩⟩ vs
      = ⟨⟨.cons (.receiver vs true) .nil⟩⟩ ∧
    pulls vs.length vs = vs.map some := by
  refine ⟨?_, pulls_length vs⟩
  rw [Sink.sendAll_eq, sendLs_receiver]
  simp

/-- C2: in a chain `Sink -> map(f) -> iter()`, sending `v` delivers exactly
`f v` to the pull stage's queue, and the next `next()` call returns `f v`. -/
theorem map_chain_transforms (A B : Type) (f : A → B) (v : A) :
    Sink.send ⟨⟨.cons (.mapper f true (.cons (.receiver [] true) .nil)) .nil⟩⟩ v
      = ⟨⟨.cons (.mapper f true (.cons (.receiver [f v] true) .nil)) .nil⟩⟩ ∧
    Iter.next [f v] = (some (f v), []) :=
  ⟨rfl, rfl⟩

/-- C3: in a chain `Sink -> filter(p) -> iter()`, sending `v` enqueues `v`
iff `p v` holds (otherwise the state is unchanged — a pure drop with no other
observable effect); over a whole sequence the queue is exactly the subsequence
passing the predicate, so after a dropped value the next pull returns the next
passing value; and the next pull returns `v` iff `p v` holds. -/
theorem filter_chain_drops (A : Type) (p : A → Bool) (v : A) (vs : List A) :
    Sink.send ⟨⟨.cons (.filt p true (.cons (.receiver [] true) .nil)) .nil⟩⟩ v
      = ⟨⟨.cons (.filt p true
          (.cons (.receiver (if p v then [v] else []) true) .nil)) .nil⟩⟩ ∧
    Sink.sendAll ⟨⟨.cons (.filt p true (.cons (.receiver [] true) .nil)) .nil⟩⟩ vs
      = ⟨⟨.cons (.filt p true (.cons (.receiver (vs.filter p) true) .nil)) .nil⟩⟩ ∧
    ((Receiver.next (if p v then [v] else [])).1 = some v ↔ p v = true) := by
  refine ⟨?_, ?_, ?_⟩
  · by_cases h : p v <;>
      simp [Sink.send, Source.send, broadcast, Listener.receive, Listener.isAlive, h]
  · rw [Sink.sendAll_eq]
    have h2 := Chain.sendLs_buildQ (Chain.filterC p Chain.iterC) [] vs
    rw [show Chain.denote (Chain.filterC p Chain.iterC)
        = fun a => if p a then some a else none from rfl] at h2
    rw [filterMap_pred_eq_filter] at h2
    simpa [Chain.buildQ] using h2
  · by_cases h : p v <;> simp [Receiver.next, h]

/-- C4: two sibling branches registered on the same upstream each observe
every sent value completely and independently: running them together equals
running each alone, and for `sink.map(f)` / `sink.map(g)` with their own
`iter()` each queue is exactly the full mapped sequence. -/
theorem sibling_branches_independent (A B C : Type) (l1 l2 : Listener A)
    (f : A → B) (g : A → C) (vs : List A) :
    Sink.sendAll ⟨⟨.cons l1 (.cons l2 .nil)⟩⟩ vs
      = ⟨⟨(sendLs (.cons l1 .nil) vs).append (sendLs (.cons l2 .nil) vs)⟩⟩ ∧
    Sink.sendAll ⟨⟨.cons (.mapper f true (.cons (.receiver [] true) .nil))
        (.cons (.mapper g true (.cons (.receiver [] true) .nil)) .nil)⟩⟩ vs
      = ⟨⟨.cons (.mapper f true (.cons (.receiver (vs.map f) true) .nil))
        (.cons (.mapper g true (.cons (.receiver (vs.map g) true) .nil)) .nil)⟩⟩ := by
  constructor
  · rw [Sink.sendAll_eq,
      show Listeners.cons l1 (.cons l2 .nil)
        = (Listeners.cons l1 .nil).append (.cons l2 .nil) from rfl,
      sendLs_append]
  · rw [Sink.sendAll_eq,
      show (Listeners.cons (.mapper f true (.cons (.receiver [] true) .nil))
          (.cons (.mapper g true (.cons (.receiver [] true) .nil)) .nil))
        = (Listeners.cons (.mapper f true (.cons (.receiver [] true) .nil)) .nil).append
          (.cons (.mapper g true (.cons (.receiver [] true) .nil)) .nil) from rfl,
      sendLs_append]
    have hf := Chain.sendLs_buildQ (Chain.mapC f Chain.iterC) [] vs
    have hg := Chain.sendLs_buildQ (Chain.mapC g Chain.iterC) [] vs
    rw [show Chain.denote (Chain.mapC f Chain.iterC) = fun a => some (f a) from rfl,
      filterMap_someComp] at hf
    rw [show Chain.denote (Chain.mapC g Chain.iterC) = fun a => some (g a) from rfl,
      filterMap_someComp] at hg
    simp only [Chain.buildQ] at hf hg
    rw [hf, hg]
    simp [Listeners.append]

/-- C5: a downstream stage whose every external reference has been dropped
(its weak registration has expired, `isAlive = false`) is never invoked by a
subsequent send on the upstream: its entire state is returned untouched for
any payload it might hold, and every sibling evolves exactly as if the dead
stage were absent. -/
theorem dead_listener_inert (A : Type) (l : Listener A) (h : l.isAlive = false)
    (xs ys : Listeners A) (vs : List A) :
    Sink.sendAll ⟨⟨xs.append (.cons l ys)⟩⟩ vs
      = ⟨⟨(sendLs xs vs).append (.cons l (sendLs ys vs))⟩⟩ := by
  rw [Sink.sendAll_eq, sendLs_dead l h xs ys vs]

/-- Witness for C5 at a concrete input: a dropped receiver among live ones. -/
theorem dead_listener_inert_witness :
    (Listener.receiver ([] : List Nat) false).isAlive = false ∧
    Sink.sendAll ⟨⟨(Listeners.cons (.receiver [] true) .nil).append
        (.cons (.receiver ([] : List Nat) false) .nil)⟩⟩ [1, 2]
      = ⟨⟨(sendLs (.cons (.receiver [] true) .nil) [1, 2]).append
        (.cons (.receiver ([] : List Nat) false) (sendLs .nil [1, 2]))⟩⟩ :=
  ⟨rfl, dead_listener_inert Nat (.receiver [] false) rfl
    (.cons (.receiver [] true) .nil) .nil [1, 2]⟩

/-- C6: Map stages support the same composition operations, and composition
agrees with function composition: in `Sink -> map(f) -> map(g) -> iter()`,
sending `v` delivers `g (f v)`, and a whole sequence is delivered as
`vs.map (g ∘ f)`. -/
theorem map_map_composes (A B C : Type) (f : A → B) (g : B → C) (v : A) (vs : List A) :
    Sink.send ⟨⟨.cons (.mapper f true (.cons (.mapper g true
        (.cons (.receiver [] true) .nil)) .nil)) .nil⟩⟩ v
      = ⟨⟨.cons (.mapper f true (.cons (.mapper g true
        (.cons (.receiver [g (f v)] true) .nil)) .nil)) .nil⟩⟩ ∧
    Sink.sendAll ⟨⟨.cons (.mapper f true (.cons (.mapper g true
        (.cons (.receiver [] true) .nil)) .nil)) .nil⟩⟩ vs
      = ⟨⟨.cons (.mapper f true (.cons (.mapper g true
        (.cons (.receiver (vs.map (g ∘ f)) true) .nil)) .nil)) .nil⟩⟩ := by
  refine ⟨rfl, ?_⟩
  rw [Sink.sendAll_eq]
  have h2 := Chain.sendLs_buildQ (Chain.mapC f (Chain.mapC g Chain.iterC)) [] vs
  rw [show Chain.denote (Chain.mapC f (Chain.mapC g Chain.iterC))
      = fun a => some (g (f a)) from rfl, filterMap_someComp] at h2
  simpa [Chain.buildQ] using h2

/-- C7: composition calls are pure chain growth: after `listen` registers an
extra listener on a stage's source, every previously attached listener
evolves under any sequence of sends exactly as it would have without the new
registration, and this holds inside Map and Filter stages as well. -/
theorem composition_preserves_streams (A B : Type) (s : Source A) (x : Listener A)
    (f : A → B) (p : A → Bool) (al : Bool) (subsOld subsNew : Listeners B)
    (oldF newF : Listeners A) (vs : List A) (a : A) :
    Sink.sendAll ⟨s.listen x⟩ vs
      = ⟨⟨(sendLs s.listeners vs).append (sendLs (.cons x .nil) vs)⟩⟩ ∧
    (Listener.mapper f al (subsOld.append subsNew)).receive a
      = .mapper f al ((broadcast subsOld (f a)).append (broadcast subsNew (f a))) ∧
    (Listener.filt p al (oldF.append newF)).receive a
      = .filt p al (if p a then (broadcast oldF a).append (broadcast newF a)
          else oldF.append newF) := by
  refine ⟨?_, ?_, ?_⟩
  · rw [show (⟨s.listen x⟩ : Sink A) = ⟨⟨s.listeners.append (.cons x .nil)⟩⟩ from rfl,
      Sink.sendAll_eq, sendLs_append]
  · simp [Listener.receive, broadcast_append]
  · by_cases h : p a <;> simp [Listener.receive, broadcast_append, h]

/-- C8: `send` has no failure mode of its own: in the fallible semantics,
whose only error sites are applications of user-supplied functions, a send
through any chain whose user functions never fail returns `ok` with exactly
the state the infallible semantics produces — any error surfacing through
`send` must originate in a user-supplied function. -/
theorem send_no_failure (A : Type) (s : Sink A) (a : A) :
    SinkE.send ⟨Listeners.toE s.source.listeners⟩ a
      = .ok ⟨Listeners.toE ((s.send a).source.listeners)⟩ := by
  simp [SinkE.send, Sink.send, Source.send, Listeners.broadcast_toE]

/-- C9 counterexample: the claim says fanning out a value during `send`
requires only shared (read) access, but `Sink::send` acquires the `RwLock`
in write (exclusive) mode. -/
theorem send_lock_not_shared : ¬ (Sink.sendLockAccess = LockAccess.read) := by
  decide

/-- C9 amended: every operation — `send` as well as `map`, `filter`, `iter`
on each stage, and `Iter::next` — acquires its stage's `RwLock` in exclusive
(write) mode, so concurrent sends on the same stage serialize against each
other as well as against composition calls. -/
theorem all_lock_ops_exclusive :
    Sink.sendLockAccess = .write ∧ Sink.mapLockAccess = .write ∧
    Sink.filterLockAccess = .write ∧ Sink.iterLockAccess = .write ∧
    Map.mapLockAccess = .write ∧ Map.filterLockAccess = .write ∧
    Map.iterLockAccess = .write ∧ Filter.mapLockAccess = .write ∧
    Filter.filterLockAccess = .write ∧ Filter.iterLockAccess = .write ∧
    Iter.nextLockAccess = .write := by
  decide

/-- C10: for any single-path chain built with `map`, `filter` and a terminal
`iter`, the state after sending any sequence — hence the pull sequence — is a
pure function of the sent values and the supplied functions (the chain's
denotation), so two runs of the same program observe identical pulls. -/
theorem pull_sequence_deterministic (A : Type) (c : Chain A) (vs : List A) :
    Sink.sendAll ⟨⟨.cons (c.buildQ []) .nil⟩⟩ vs
      = ⟨⟨.cons (c.buildQ (vs.filterMap c.denote)) .nil⟩⟩ ∧
    pulls (vs.filterMap c.denote).length (vs.filterMap c.denote)
      = (vs.filterMap c.denote).map some := by
  refine ⟨?_, pulls_length _⟩
  rw [Sink.sendAll_eq]
  simpa using Chain.sendLs_buildQ c [] vs

end Carboxyl
